import Mathlib

/-!
Verification of the retrieval/chunking core of the rag-insurance-chatbot
repository.  Python code is shallowly embedded: strings become `List Char`,
floats become `ℚ` (float literals such as `0.8` are modelled by the rational
they denote in the source text), Python `int` becomes `Int`/`Nat`, fallible
code returns `Except`/`Option`.  External collaborators (the OpenAI embedding
API, the Pinecone index, uuid generation, wall-clock timestamps and logging)
are modelled as parameters or omitted where no claim depends on them.
-/

namespace RagSpec

/-! ## Python string primitives

`isPySpace` covers the whitespace characters relevant to the repository's
documents (ASCII whitespace plus the ideographic space); `pyStrip` is
`str.strip()`, `sliceNat`/`pySlice` are Python slicing (`pySlice` handles
negative indices the way Python does), `pyCount` is the non-overlapping
`str.count`, `pyReplace` is `str.replace` (all occurrences, left to right). -/

def isPySpace (c : Char) : Bool :=
  c = ' ' || c = '\t' || c = '\n' || c = '\r' || c = '\x0b' || c = '\x0c' || c = '　'

def isAsciiDigit (c : Char) : Bool :=
  '0' ≤ c && c ≤ '9'

def pyStrip (cs : List Char) : List Char :=
  ((cs.dropWhile isPySpace).reverse.dropWhile isPySpace).reverse

def sliceNat (cs : List Char) (a b : Nat) : List Char :=
  (cs.drop a).take (b - a)

def pyIdx (len : Nat) (i : Int) : Nat :=
  if i < 0 then ((len : Int) + i).toNat else min i.toNat len

def pySlice (cs : List Char) (a b : Int) : List Char :=
  (cs.drop (pyIdx cs.length a)).take (pyIdx cs.length b - pyIdx cs.length a)

def pyCountAux (pat : List Char) : Nat → List Char → Nat
  | 0, _ => 0
  | fuel + 1, cs =>
    match cs with
    | [] => if pat = [] then 1 else 0
    | c :: rest =>
      if pat = [] then rest.length + 2
      else if pat.isPrefixOf (c :: rest) then 1 + pyCountAux pat fuel ((c :: rest).drop pat.length)
      else pyCountAux pat fuel rest

/-- `str.count`: non-overlapping occurrences of `pat` in `cs`, scanning left
to right.  The scan shortens the string on every step, so `cs.length + 1`
units of fuel always suffice; fuel keeps the recursion structural. -/
def pyCount (pat cs : List Char) : Nat :=
  pyCountAux pat (cs.length + 1) cs

def pyReplaceAux (old new : List Char) : Nat → List Char → List Char
  | 0, cs => cs
  | fuel + 1, cs =>
    match cs with
    | [] => []
    | c :: rest =>
      if old = [] then c :: rest
      else if old.isPrefixOf (c :: rest) then
        new ++ pyReplaceAux old new fuel ((c :: rest).drop old.length)
      else c :: pyReplaceAux old new fuel rest

/-- `str.replace`: replace every non-overlapping occurrence of `old` with
`new`, scanning left to right (for empty `old` the repository never calls
it, and we leave the string unchanged). -/
def pyReplace (cs old new : List Char) : List Char :=
  pyReplaceAux old new (cs.length + 1) cs

def containsSub (cs pat : List Char) : Bool :=
  match cs with
  | [] => pat.isEmpty
  | c :: rest => pat.isPrefixOf (c :: rest) || containsSub rest pat

/-! ## Configuration (src/config.py)

`RetrievalConfig` with its defaults (`top_k = 5`,
`similarity_threshold = 0.8`, `chunk_size = 256`, `chunk_overlap = 26`). -/

structure RetrievalConfig where
  topK : Nat
  similarityThreshold : ℚ
  chunkSize : Nat
  chunkOverlap : Nat
deriving DecidableEq

def defaultRetrievalConfig : RetrievalConfig :=
  { topK := 5, similarityThreshold := 4/5, chunkSize := 256, chunkOverlap := 26 }

/-! ## Vector search (src/retrieval/vector_store.py, PineconeVectorStore.search)

The Pinecone index response is abstracted as the list of raw matches it
returns (`response["matches"]`, already limited to `top_k` by the index);
the core's own post-processing — building `DocumentMatch` records with
ranks `1, 2, …` and then discarding every result whose score is below the
configured similarity threshold — is embedded faithfully. -/

structure RawMatch where
  id : String
  score : ℚ
deriving DecidableEq

structure DocumentMatch where
  docId : String
  score : ℚ
  rank : Nat
deriving DecidableEq

def pineconeSearch (threshold : ℚ) (rawMatches : List RawMatch) : List DocumentMatch :=
  let results := rawMatches.enum.map
    (fun p => { docId := p.2.id, score := p.2.score, rank := p.1 + 1 : DocumentMatch })
  results.filter (fun r => decide (threshold ≤ r.score))

/-! ## Confidence scoring (src/generation/response_generator.py,
ResponseGenerator._calculate_confidence_score)

The function only reads the scores of the retrieved documents and the
`finish_reason` field of the LLM response, so it is embedded as a function
of those. -/

def calculateConfidenceScore (scores : List ℚ) (finishReason : String) : ℚ :=
  if scores = [] then 1/10
  else
    let avgRelevance := scores.sum / (scores.length : ℚ)
    let docCountFactor := min 1 ((scores.length : ℚ) / 3)
    let finishReasonFactor : ℚ :=
      if finishReason = "length" then 8/10
      else if finishReason = "stop" then 1
      else 1
    let confidence := avgRelevance * (6/10) + docCountFactor * (3/10) + finishReasonFactor * (1/10)
    min 1 (max 0 confidence)

/-- The confidence formula exactly as the specification words it
(§4.7): `0.6·avg + 0.3·min(1, count/3) + 0.1·finish_factor`, clamped to
[0,1], with the fixed 0.1 floor for zero matches. -/
def confidenceSpecFormula (scores : List ℚ) (finishReason : String) : ℚ :=
  if scores = [] then 1/10
  else
    let finishFactor : ℚ := if finishReason = "length" then 8/10 else 1
    min 1 (max 0 ((6/10) * (scores.sum / (scores.length : ℚ)) +
      (3/10) * min 1 ((scores.length : ℚ) / 3) + (1/10) * finishFactor))

/-! ## Orchestrator state machine (src/generation/rag_system.py)

`RAGSystem` keeps a single boolean `_is_initialized`.  `initialize_system`
and `reindex_documents` both set it to `indexing_results["processing_successful"]`,
which `RetrievalService.index_documents_from_file` computes as
`len(indexed_ids) > 0` — at least one vector written; any exception during
ingestion leaves/sets it `False`.  `query` first checks the flag and raises a
"not initialized" error, then rejects blank questions, and only then performs
retrieval.  Retrieval is abstracted as a function parameter so that the guard
provably fires before any retrieval can occur. -/

inductive IngestEvent where
  | ok (vectorsIndexed : Nat)
  | failed
deriving DecidableEq

def applyIngest (_s : Bool) (e : IngestEvent) : Bool :=
  match e with
  | .ok n => decide (0 < n)
  | .failed => false

def runIngests (events : List IngestEvent) : Bool :=
  events.foldl applyIngest false

inductive QueryError where
  | notInitialized
  | emptyQuestion
deriving DecidableEq

def ragQuery (initialized : Bool) (question : List Char)
    (retrieve : List Char → List DocumentMatch) : Except QueryError (List DocumentMatch) :=
  if initialized = false then .error .notInitialized
  else if pyStrip question = [] then .error .emptyQuestion
  else .ok (retrieve (pyStrip question))

/-! ## Clause classification (src/processing/chunking_strategy.py,
ChunkingStrategy._classify_clause_type)

Each compiled pattern is an alternation of short literal/character-class
sequences; `re.search` is "some suffix has a matching prefix".  The patterns:
exclusion `不[負承]?保[障險]|免責|排除|例外|但[不非]包括`, procedure
`申請|理賠|通知|證明|文件|程序|手續|期限|時間`, coverage
`旅[程遊]延[誤遲]|行李[遺損失毀]|醫療費用|意外傷[害亡]|取消行程|緊急救援`.
(The source computes `content.lower()` but never uses it.) -/

def matchBaoAt (cs : List Char) : Bool :=
  match cs with
  | '保' :: y :: _ => y = '障' || y = '險'
  | _ => false

def exclusionAt (cs : List Char) : Bool :=
  (match cs with
   | '不' :: rest =>
     (match rest with
      | c :: rest2 => if c = '負' || c = '承' then matchBaoAt rest2 else matchBaoAt rest
      | [] => false)
   | _ => false) ||
  (['免', '責'].isPrefixOf cs) || (['排', '除'].isPrefixOf cs) || (['例', '外'].isPrefixOf cs) ||
  (match cs with
   | '但' :: c :: '包' :: '括' :: _ => c = '不' || c = '非'
   | _ => false)

def procedureAt (cs : List Char) : Bool :=
  (["申請", "理賠", "通知", "證明", "文件", "程序", "手續", "期限", "時間"].map String.data).any
    (fun w => w.isPrefixOf cs)

def coverageAt (cs : List Char) : Bool :=
  (match cs with
   | '旅' :: c :: '延' :: d :: _ => (c = '程' || c = '遊') && (d = '誤' || d = '遲')
   | _ => false) ||
  (match cs with
   | '行' :: '李' :: c :: _ => c = '遺' || c = '損' || c = '失' || c = '毀'
   | _ => false) ||
  ("醫療費用".data.isPrefixOf cs) ||
  (match cs with
   | '意' :: '外' :: '傷' :: c :: _ => c = '害' || c = '亡'
   | _ => false) ||
  ("取消行程".data.isPrefixOf cs) || ("緊急救援".data.isPrefixOf cs)

def anySuffix (p : List Char → Bool) : List Char → Bool
  | [] => false
  | c :: rest => p (c :: rest) || anySuffix p rest

def classifyClauseType (content : List Char) : String :=
  if anySuffix exclusionAt content then "exclusion"
  else if anySuffix procedureAt content then "procedure"
  else if anySuffix coverageAt content then "coverage"
  else "general"

/-! ## A generic regex-finditer scanner

`re.finditer` semantics specialised to the repository's concrete patterns:
scan positions left to right; at each position try the pattern matcher
(which receives the previous character, for `^`/MULTILINE assertions, and
the suffix, and returns the unconsumed remainder plus a payload); on a
match record `(start, end, payload)` and resume at the match end (bumping
by one on a hypothetical zero-width match, as Python does).  Every matcher
used here consumes at least one character, so `glob.length + 1` units of
fuel always suffice. -/

def prevAt (glob : List Char) (pos : Nat) : Option Char :=
  if pos = 0 then none else glob[pos - 1]?

def finditAux {α : Type} (m : Option Char → List Char → Option (List Char × α))
    (glob : List Char) : Nat → Nat → List (Nat × Nat × α)
  | 0, _ => []
  | fuel + 1, pos =>
    if pos < glob.length then
      match m (prevAt glob pos) (glob.drop pos) with
      | some (rest, a) =>
        let k := glob.length - pos - rest.length
        (pos, pos + k, a) :: finditAux m glob fuel (pos + max k 1)
      | none => finditAux m glob fuel (pos + 1)
    else []

def finditFrom {α : Type} (m : Option Char → List Char → Option (List Char × α))
    (glob : List Char) : List (Nat × Nat × α) :=
  finditAux m glob (glob.length + 1) 0

/-! ## Security validation (src/security.py, SecurityValidator)

The PII regexes are concrete patterns over digit runs, uppercase letters
and dashes; each matcher consumes a match prefix and returns the remainder
(`none` if the pattern does not match at this position).  `findall` is the
finditer scan keeping the matched substrings. -/

def isUpperAZ (c : Char) : Bool :=
  'A' ≤ c && c ≤ 'Z'

def takeDigits (cs : List Char) : Nat :=
  (cs.takeWhile isAsciiDigit).length

def expectChar (c : Char) : List Char → Option (List Char)
  | x :: rest => if x = c then some rest else none
  | [] => none

def exactDigits (n : Nat) (cs : List Char) : Option (List Char) :=
  if n ≤ cs.length && (cs.take n).all isAsciiDigit then some (cs.drop n) else none

/-- `\d{4}-\d{4}-\d{4}-\d{4}` (credit-card pattern). -/
def ccMatcher (cs : List Char) : Option (List Char) :=
  ((((((exactDigits 4 cs).bind (expectChar '-')).bind (exactDigits 4)).bind
    (expectChar '-')).bind (exactDigits 4)).bind (expectChar '-')).bind (exactDigits 4)

/-- `\d{10,11}` (phone-number pattern), greedy. -/
def phoneMatcher (cs : List Char) : Option (List Char) :=
  let d := takeDigits cs
  if 10 ≤ d then some (cs.drop (min d 11)) else none

/-- `[A-Z]\d{9}` (Taiwan national-ID pattern). -/
def natIdMatcher (cs : List Char) : Option (List Char) :=
  match cs with
  | c :: rest => if isUpperAZ c then exactDigits 9 rest else none
  | [] => none

/-- `09\d{8}` (Taiwan mobile number). -/
def mobileMatcher (cs : List Char) : Option (List Char) :=
  ((expectChar '0' cs).bind (expectChar '9')).bind (exactDigits 8)

/-- `\d{2}-\d{8}` (Taiwan landline). -/
def landlineMatcher (cs : List Char) : Option (List Char) :=
  ((exactDigits 2 cs).bind (expectChar '-')).bind (exactDigits 8)

/-- `[A-Z]{2}\d{8}` (Taiwan passport). -/
def passportMatcher (cs : List Char) : Option (List Char) :=
  match cs with
  | a :: b :: rest => if isUpperAZ a && isUpperAZ b then exactDigits 8 rest else none
  | _ => none

/-- `pattern.findall(content)`: the matched substrings of the non-overlapping
left-to-right scan. -/
def piiFindall (m : List Char → Option (List Char)) (content : List Char) : List (List Char) :=
  (finditFrom (fun _ cs => (m cs).map (fun r => (r, ()))) content).map
    (fun x => sliceNat content x.1 x.2.1)

/-- Mask one PII match: keep first and last character, fill the interior
with `*`; matches of length ≤ 2 are fully starred. -/
def maskMatch (m : List Char) : List Char :=
  if 2 < m.length then m.headD '*' :: (List.replicate (m.length - 2) '*' ++ [m.getLastD '*'])
  else List.replicate m.length '*'

/-- The pattern/name table of `detect_and_mask_pii`: the three configured
general patterns `pii_pattern_0/1/2` first, then the Taiwan-specific
patterns zipped with their names, in source order. -/
def piiPatternTable : List ((List Char → Option (List Char)) × String) :=
  [(ccMatcher, "pii_pattern_0"), (phoneMatcher, "pii_pattern_1"), (natIdMatcher, "pii_pattern_2"),
   (natIdMatcher, "taiwan_id"), (ccMatcher, "credit_card"), (mobileMatcher, "mobile_phone"),
   (landlineMatcher, "landline"), (passportMatcher, "passport")]

/-- `SecurityValidator.detect_and_mask_pii`: for each pattern, findall runs
on the *original* content; if it found matches the pattern's name is
appended to the found-kinds list and every matched string is replaced in
the running masked content by its mask. -/
def detectAndMaskPii (enablePiiDetection : Bool) (content : List Char) :
    List Char × List String :=
  if enablePiiDetection = false then (content, [])
  else
    piiPatternTable.foldl (fun acc p =>
      let ms := piiFindall p.1 content
      if ms = [] then acc
      else (ms.foldl (fun mc mt => pyReplace mc mt (maskMatch mt)) acc.1, acc.2 ++ [p.2]))
      (content, [])

/-- The fixed character list scanned by
`SecurityValidator._detect_repeated_pattern_attack`. -/
def monitoredChars : List Char := ['A', 'a', '1', '0', ' ', '\n']

/-- `_detect_repeated_pattern_attack`: flags content where one of the six
monitored characters exceeds 80 % of the length (`count > len * 0.8`,
modelled exactly as `5·count > 4·len`), or where some substring of length
2–5 starting in the first `min(100, len − patlen)` positions occurs more
than 1000 times (non-overlapping `str.count`). -/
def detectRepeatedPatternAttack (content : List Char) : Bool :=
  (monitoredChars.any (fun ch => content.length * 4 < content.count ch * 5)) ||
  ([2, 3, 4, 5].any (fun patternLen =>
    (List.range (min 100 (content.length - patternLen))).any (fun i =>
      1000 < pyCount (sliceNat content i (i + patternLen)) content)))

def utf8Length (cs : List Char) : Nat :=
  (cs.map Char.utf8Size).sum

def securityMaxMemoryPerDocument : Nat := 500000000

/-- `SecurityValidator.check_resource_limits`: memory estimate (5× the
UTF-8 byte length) against the configured ceiling, then the repeated
pattern detector. -/
def checkResourceLimits (maxMemoryPerDocument : Nat) (content : List Char) : Bool × String :=
  let contentSize := utf8Length content
  let estimatedMemory := contentSize * 5
  if maxMemoryPerDocument < estimatedMemory then
    (false, "Estimated memory usage exceeds limit")
  else if detectRepeatedPatternAttack content then
    (false, "Potential DoS attack via repeated patterns detected")
  else (true, "Resource limits check passed")

/-! ## Batch embedding (src/retrieval/embedding_service.py,
EmbeddingService.encode_batch)

The OpenAI call is abstracted as `apiEmbed : List Char → List ℚ` (one raw
vector per input text; batching the texts into API requests of size
`min(batch_size, 2048)` does not change which vector a text receives, and
is embedded faithfully via `batchesOf`).  The defensive L2 re-normalization
`norm = ‖v‖; if norm > 0: v/norm` is abstracted as a `normalize` parameter
because the square root of the float norm has no computable rational
embedding; every structural property proved below holds for any
normalization.  Empty/whitespace-only texts are filtered out before the API
call and get a zero vector of the service dimension on reassembly; if *all*
texts are blank the source raises `EmbeddingError`. -/

def batchesAux {α : Type} (b : Nat) : Nat → List α → List (List α)
  | 0, _ => []
  | fuel + 1, l =>
    match l with
    | [] => []
    | x :: rest => (x :: rest).take (max b 1) :: batchesAux b fuel ((x :: rest).drop (max b 1))

/-- Split a list into consecutive batches of `b` elements
(`for i in range(0, len(xs), b): xs[i:i+b]`); each step consumes at least
one element, so `l.length` fuel suffices. -/
def batchesOf {α : Type} (b : Nat) (l : List α) : List (List α) :=
  batchesAux b l.length l

/-- Rebuild the result list in original input order: blank inputs get the
zero vector of the service dimension, the others consume the generated
embeddings in order (the source tracks `original_indices` and an
`embedding_idx` cursor; this recursion is the same assignment). -/
def reassembleEmbeddings (dimension : Nat) :
    List (List Char) → List (List ℚ) → List (List ℚ)
  | [], _ => []
  | t :: ts, embs =>
    if (pyStrip t).isEmpty then
      List.replicate dimension 0 :: reassembleEmbeddings dimension ts embs
    else embs.headD [] :: reassembleEmbeddings dimension ts embs.tail

def encodeBatch (dimension : Nat) (normalize : List ℚ → List ℚ)
    (apiEmbed : List Char → List ℚ) (batchSize : Nat) (texts : List (List Char)) :
    Except String (List (List ℚ)) :=
  if texts = [] then .ok []
  else
    let nonEmptyTexts := (texts.filter (fun t => !(pyStrip t).isEmpty)).map pyStrip
    if nonEmptyTexts = [] then .error "Cannot generate embeddings for all empty texts"
    else
      let allEmbeddings := (batchesOf (min batchSize 2048) nonEmptyTexts).flatMap
        (fun batch => batch.map (fun t => normalize (apiEmbed t)))
      .ok (reassembleEmbeddings dimension texts allEmbeddings)

/-! ## Chunking engine (src/processing/chunking_strategy.py, ChunkingStrategy)

The boundary regexes are embedded as deterministic matchers (every
alternation in the source patterns is decided by its first non-consumed
character, and every greedy quantifier is followed by a character class
disjoint from the quantified one, so the Python backtracking engine and the
greedy deterministic matcher agree):

* clause headers `第\s*(\d+(?:\.\d+)*)\s*條\s*([^\n]*)` — group 1 is the
  clause number, group 2 the title (note: `\s*` after `條` may cross a
  newline, exactly as in Python, in which case the title is taken from a
  later line);
* sub-clauses `^[\s]*(?:（[一二三四五六七八九十]+）|\([一二三四五六七八九十]+\)|\d+[\.\)、])`
  with MULTILINE `^`;
* section breaks `(?:^|\n)[\s]*(?:第[一二三四五六七八九十]+[章節部]|[壹貳參肆伍陸柒捌玖拾]+[\s]*、)`
  with MULTILINE `^`. -/

def takeSpaces (cs : List Char) : Nat :=
  (cs.takeWhile isPySpace).length

def isChineseNumeral (c : Char) : Bool :=
  ['一', '二', '三', '四', '五', '六', '七', '八', '九', '十'].contains c

def isSectionBigNumeral (c : Char) : Bool :=
  ['壹', '貳', '參', '肆', '伍', '陸', '柒', '捌', '玖', '拾'].contains c

def atLineStart (prev : Option Char) : Bool :=
  prev = none || prev = some '\n'

/-- Consumed length of `(?:\.\d+)*` (each repetition eats a dot and at
least one digit, so `cs.length` fuel suffices). -/
def dotsDigitsAux : Nat → List Char → Nat
  | 0, _ => 0
  | fuel + 1, cs =>
    match cs with
    | '.' :: rest =>
      let d := takeDigits rest
      if d = 0 then 0 else (1 + d) + dotsDigitsAux fuel (rest.drop d)
    | _ => 0

def dotsDigits (cs : List Char) : Nat :=
  dotsDigitsAux cs.length cs

/-- `第\s*(\d+(?:\.\d+)*)\s*條\s*([^\n]*)`; payload = (group 1, group 2). -/
def clauseHeaderMatcher (_prev : Option Char) (cs : List Char) :
    Option (List Char × (List Char × List Char)) :=
  match cs with
  | '第' :: r1 =>
    let w1 := takeSpaces r1
    let r2 := r1.drop w1
    let d1 := takeDigits r2
    if d1 = 0 then none
    else
      let ext := dotsDigits (r2.drop d1)
      let g1 := r2.take (d1 + ext)
      let r3 := r2.drop (d1 + ext)
      let w2 := takeSpaces r3
      match r3.drop w2 with
      | '條' :: r5 =>
        let w3 := takeSpaces r5
        let r6 := r5.drop w3
        let title := r6.takeWhile (fun c => !(c = '\n'))
        some (r6.drop title.length, (g1, title))
      | _ => none
  | _ => none

/-- `^[\s]*(?:（[一二三四五六七八九十]+）|\([一二三四五六七八九十]+\)|\d+[\.\)、])`. -/
def subClauseMatcher (prev : Option Char) (cs : List Char) : Option (List Char × Unit) :=
  if atLineStart prev then
    let w := takeSpaces cs
    match cs.drop w with
    | '（' :: r2 =>
      let n := (r2.takeWhile isChineseNumeral).length
      if n = 0 then none
      else
        match r2.drop n with
        | '）' :: r3 => some (r3, ())
        | _ => none
    | '(' :: r2 =>
      let n := (r2.takeWhile isChineseNumeral).length
      if n = 0 then none
      else
        match r2.drop n with
        | ')' :: r3 => some (r3, ())
        | _ => none
    | r =>
      let d := takeDigits r
      if d = 0 then none
      else
        match r.drop d with
        | x :: r3 => if x = '.' || x = ')' || x = '、' then some (r3, ()) else none
        | [] => none
  else none

/-- The marker part `[\s]*(?:第[一二三四五六七八九十]+[章節部]|[壹貳參肆伍陸柒捌玖拾]+[\s]*、)`. -/
def sectionMarkerAfterWs (cs : List Char) : Option (List Char) :=
  let w := takeSpaces cs
  match cs.drop w with
  | '第' :: r2 =>
    let n := (r2.takeWhile isChineseNumeral).length
    if n = 0 then none
    else
      match r2.drop n with
      | x :: r3 => if x = '章' || x = '節' || x = '部' then some r3 else none
      | [] => none
  | r =>
    let b := (r.takeWhile isSectionBigNumeral).length
    if b = 0 then none
    else
      let r2 := r.drop b
      let w2 := takeSpaces r2
      match r2.drop w2 with
      | '、' :: r3 => some r3
      | _ => none

/-- `(?:^|\n)` followed by the marker: at a line start the zero-width `^`
alternative applies (consuming a leading `\n` via `\s*` when both could
match gives the same end position, so the two alternatives agree there);
elsewhere the literal `\n` alternative must consume a newline. -/
def sectionBreakMatcher (prev : Option Char) (cs : List Char) : Option (List Char × Unit) :=
  if atLineStart prev then (sectionMarkerAfterWs cs).map (fun r => (r, ()))
  else
    match cs with
    | '\n' :: rest => (sectionMarkerAfterWs rest).map (fun r => (r, ()))
    | _ => none

/-- Chunk metadata (`_create_chunk`): the traceability fields the claims
are about.  The uuid `chunk_id`, `source_file`/`source_path` and
`chunk_index` fields are omitted (the uuid is nondeterministic I/O, the
others are copied verbatim from the arguments).  `char_start`/`char_end`
are Python ints. -/
structure ChunkMeta where
  sectionTitle : List Char
  clauseNumber : List Char
  clauseTitle : List Char
  clauseType : String
  charStart : Int
  charEnd : Int
  chunkLength : Nat
deriving DecidableEq

structure Document where
  content : List Char
  meta : ChunkMeta
deriving DecidableEq

def createChunk (content sectionTitle clauseNumber clauseTitle : List Char)
    (charStart charEnd : Int) : Document :=
  { content := content
    meta := { sectionTitle := sectionTitle, clauseNumber := clauseNumber,
              clauseTitle := clauseTitle,
              clauseType := classifyClauseType content,
              charStart := charStart, charEnd := charEnd,
              chunkLength := content.length } }

/-- Pair each match with the start of the next match (or `len`): the
source's `matches[i+1].start() if i+1 < len(matches) else len(text)`. -/
def headStartOr {α : Type} (dflt : Nat) : List (Nat × Nat × α) → Nat
  | [] => dflt
  | (s, _, _) :: _ => s

def spansWith {α : Type} (len : Nat) : List (Nat × Nat × α) → List (Nat × Nat × α)
  | [] => []
  | (s, _, a) :: rest => (s, headStartOr len rest, a) :: spansWith len rest

/-- The sliding-window loop shared by `_sliding_window_chunk` and
`_fixed_size_chunking_with_metadata` (they differ only in the chunk-number
format and the clause title).  The loop variable `position` is a Python
int; it advances by `chunk_size - chunk_overlap` each iteration, so it
need not terminate — the fuelled recursion returns `none` when fuel runs
out before `position` reaches the end, and `text.length + 1` fuel is
proven sufficient whenever `chunk_overlap < chunk_size`. -/
def slidingAux (chunkSize chunkOverlap : Nat) (text sectionTitle clauseTitle : List Char)
    (numberOf : Nat → List Char) (startPos : Nat) :
    Nat → Int → Nat → Option (List Document)
  | 0, position, _ => if position < (text.length : Int) then none else some []
  | fuel + 1, position, chunkIndex =>
    if position < (text.length : Int) then
      let endPos : Int := min (position + (chunkSize : Int)) (text.length : Int)
      let chunkText := pyStrip (pySlice text position endPos)
      let step : Int := (chunkSize : Int) - (chunkOverlap : Int)
      if chunkText.isEmpty then
        slidingAux chunkSize chunkOverlap text sectionTitle clauseTitle numberOf startPos
          fuel (position + step) chunkIndex
      else
        (slidingAux chunkSize chunkOverlap text sectionTitle clauseTitle numberOf startPos
          fuel (position + step) (chunkIndex + 1)).map
          (fun r => createChunk chunkText sectionTitle (numberOf chunkIndex) clauseTitle
            ((startPos : Int) + position) ((startPos : Int) + endPos) :: r)
    else some []

/-- `_sliding_window_chunk`: chunk numbers `f"{clause_number}_{chunk_index}"`. -/
def slidingWindowChunk (cfg : RetrievalConfig) (text clauseNumber clauseTitle
    sectionTitle : List Char) (startPos : Nat) : List Document :=
  (slidingAux cfg.chunkSize cfg.chunkOverlap text sectionTitle clauseTitle
    (fun i => clauseNumber ++ '_' :: (toString i).data) startPos (text.length + 1) 0 0).getD []

/-- `_fixed_size_chunking_with_metadata`: chunk numbers `f"chunk_{chunk_index}"`,
empty clause title. -/
def fixedSizeChunkingWithMetadata (cfg : RetrievalConfig) (text sectionTitle : List Char)
    (sectionStart : Nat) : List Document :=
  (slidingAux cfg.chunkSize cfg.chunkOverlap text sectionTitle []
    (fun i => "chunk_".data ++ (toString i).data) sectionStart (text.length + 1) 0 0).getD []

/-- `_fixed_size_chunking`. -/
def fixedSizeChunking (cfg : RetrievalConfig) (text : List Char) : List Document :=
  fixedSizeChunkingWithMetadata cfg text "固定大小分塊".data 0

/-- `_split_long_clause`: if the clause has ≥ 2 sub-clause boundaries,
split on them, keep only stripped fragments longer than 10 characters, and
number chunks `f"{clause_number}.{i+1}"` by boundary index; otherwise
sliding window. -/
def splitLongClause (cfg : RetrievalConfig) (clauseText clauseNumber clauseTitle
    sectionTitle : List Char) (clauseStart : Nat) : List Document :=
  let sms := finditFrom subClauseMatcher clauseText
  if 1 < sms.length then
    ((spansWith clauseText.length sms).enum).flatMap (fun p =>
      let subText := pyStrip (sliceNat clauseText p.2.1 p.2.2.1)
      if !subText.isEmpty && 10 < subText.length then
        [createChunk subText sectionTitle
          (clauseNumber ++ '.' :: (toString (p.1 + 1)).data) clauseTitle
          ((clauseStart + p.2.1 : Nat) : Int) ((clauseStart + p.2.2.1 : Nat) : Int)]
      else [])
  else slidingWindowChunk cfg clauseText clauseNumber clauseTitle sectionTitle clauseStart

/-- `_chunk_section`: clause detection, per-clause sizing decision. -/
def chunkSection (cfg : RetrievalConfig) (sectionText sectionTitle : List Char)
    (sectionStart : Nat) : List Document :=
  let ms := finditFrom clauseHeaderMatcher sectionText
  if ms.isEmpty then fixedSizeChunkingWithMetadata cfg sectionText sectionTitle sectionStart
  else
    (spansWith sectionText.length ms).flatMap (fun p =>
      let clauseText := pyStrip (sliceNat sectionText p.1 p.2.1)
      if clauseText.isEmpty then []
      else
        let clauseNumber := p.2.2.1
        let clauseTitle := pyStrip p.2.2.2
        if cfg.chunkSize < clauseText.length then
          splitLongClause cfg clauseText clauseNumber clauseTitle sectionTitle
            (sectionStart + p.1)
        else
          [createChunk clauseText sectionTitle clauseNumber clauseTitle
            ((sectionStart + p.1 : Nat) : Int) ((sectionStart + p.2.1 : Nat) : Int)])

/-- `_identify_sections`: section spans with titles `match.group().strip()`;
whole document as section `"全文"` when no section breaks are found. -/
def identifySections (text : List Char) : List (Nat × Nat × List Char) :=
  let ms := finditFrom sectionBreakMatcher text
  if ms.isEmpty then [(0, text.length, "全文".data)]
  else spansWith text.length (ms.map (fun x => (x.1, x.2.1, pyStrip (sliceNat text x.1 x.2.1))))

/-- `_semantic_chunking`, including its own fallback to one
`"文件內容"` section when the per-section pass produced nothing. -/
def semanticChunking (cfg : RetrievalConfig) (text : List Char) : List Document :=
  let chunks := (identifySections text).flatMap
    (fun s => chunkSection cfg (sliceNat text s.1 s.2.1) s.2.2 s.1)
  if chunks.isEmpty then chunkSection cfg text "文件內容".data 0 else chunks

/-- `chunk_document`: blank input gives no chunks; with
`preserve_structure` the semantic pass runs, and when it returns zero
chunks the average-size log line raises `ZeroDivisionError`, which the
handler turns into the fixed-size fallback over the raw input. -/
def chunkDocument (cfg : RetrievalConfig) (preserveStructure : Bool)
    (text : List Char) : List Document :=
  if (pyStrip text).isEmpty then []
  else if preserveStructure then
    let chunks := semanticChunking cfg text
    if chunks.isEmpty then fixedSizeChunking cfg text else chunks
  else fixedSizeChunking cfg text

/-- The spec's description of step 3a (§4.3): the clause fragments obtained
by splitting exactly on the sub-clause boundaries, each fragment running
from one boundary to the next (the last one to the end of the clause). -/
def subClauseFragments (clauseText : List Char) : List (Nat × Nat) :=
  (spansWith clauseText.length (finditFrom subClauseMatcher clauseText)).map
    (fun x => (x.1, x.2.1))

/-- Well-formedness of one chunk relative to the text `S` it was cut from,
whose own offset in the full document is `base`: offsets are `base`-shifted
positions inside `S`, the interval is non-degenerate and inside `S`, the
content is the stripped slice, and the recorded length is the content
length. -/
def ChunkFrom (S : List Char) (base : Nat) (c : Document) : Prop :=
  ∃ a b : Nat, c.meta.charStart = ((base + a : Nat) : Int) ∧
    c.meta.charEnd = ((base + b : Nat) : Int) ∧ a < b ∧ b ≤ S.length ∧
    c.content = pyStrip (sliceNat S a b) ∧ c.meta.chunkLength = c.content.length

/-- Starts/ends of a finditer result are chained and bounded: consecutive
matches do not overlap, each match is non-degenerate and ends within the
text. -/
def ChainBnd {α : Type} (N : Nat) : Nat → List (Nat × Nat × α) → Prop
  | _, [] => True
  | lb, (s, e, _) :: rest => lb ≤ s ∧ s < e ∧ e ≤ N ∧ ChainBnd N e rest

/-- A concrete over-long clause with exactly two sub-clause boundaries
(`1.` at position 0 and `2.` at position 11) whose first fragment strips to
exactly 10 characters: `"1.abcdefgh\n2." ++ "x" * 260`. -/
def c5Clause : List Char := "1.abcdefgh\n2.".data ++ List.replicate 260 'x'

/-! ## Theorems for claims C1–C4 -/

/-- C1: every `Match` returned by the vector search operation has
`score ≥ similarity_threshold`: after building ranked results from the raw
index matches, `PineconeVectorStore.search` discards any result whose score
is below the configured threshold before returning. -/
theorem search_respects_similarity_threshold (threshold : ℚ) (rawMatches : List RawMatch)
    (m : DocumentMatch) (hm : m ∈ pineconeSearch threshold rawMatches) :
    threshold ≤ m.score := by
  simp only [pineconeSearch, List.mem_filter, decide_eq_true_eq] at hm
  exact hm.2

/-- Witness for C1 at the default configuration's threshold 0.8 and a
concrete two-element index response. -/
theorem search_respects_similarity_threshold_witness :
    ({ docId := "a", score := 9/10, rank := 1 : DocumentMatch } ∈
      pineconeSearch defaultRetrievalConfig.similarityThreshold
        [{ id := "a", score := 9/10 }, { id := "b", score := 1/2 }]) ∧
    defaultRetrievalConfig.similarityThreshold ≤
      ({ docId := "a", score := 9/10, rank := 1 : DocumentMatch }).score := by
  have hmem : ({ docId := "a", score := 9/10, rank := 1 : DocumentMatch } ∈
      pineconeSearch defaultRetrievalConfig.similarityThreshold
        [{ id := "a", score := 9/10 }, { id := "b", score := 1/2 }]) := by
    simp [pineconeSearch, List.enum, defaultRetrievalConfig]
    norm_num
  exact ⟨hmem,
    search_respects_similarity_threshold defaultRetrievalConfig.similarityThreshold
      [{ id := "a", score := 9/10 }, { id := "b", score := 1/2 }]
      { docId := "a", score := 9/10, rank := 1 } hmem⟩

/-- C2: the computed confidence agrees with the specification's formula
`0.6·avg(score) + 0.3·min(1, count/3) + 0.1·finish_factor` (clamped to
[0,1], finish factor 0.8 on truncation and 1.0 otherwise), and is the fixed
floor 0.1 whenever the match list is empty.  Stated as equality of the
source-embedded function with a formula transcribed from the spec, so it
holds for every match list and every completion result. -/
theorem confidence_matches_spec_formula (scores : List ℚ) (finishReason : String) :
    calculateConfidenceScore scores finishReason = confidenceSpecFormula scores finishReason ∧
    calculateConfidenceScore [] finishReason = 1/10 := by
  constructor
  · unfold calculateConfidenceScore confidenceSpecFormula
    by_cases hs : scores = []
    · simp [hs]
    · simp only [hs, if_false]
      by_cases hl : finishReason = "length"
      · simp [hl]; ring_nf
      · by_cases hst : finishReason = "stop" <;> · simp [hl, hst]; ring_nf
  · simp [calculateConfidenceScore]

/-- C3: (a) in every reachable orchestrator state in which no preceding
ingest successfully wrote at least one vector, `query` fails with the
not-initialized error, for every possible retrieval backend — i.e. before
any retrieval is performed; (b) the state is Ready only if some ingest
wrote at least one vector. -/
theorem query_requires_initialized (events : List IngestEvent) (question : List Char)
    (retrieve : List Char → List DocumentMatch)
    (hnone : ∀ n, IngestEvent.ok n ∈ events → n = 0) :
    ragQuery (runIngests events) question retrieve = .error .notInitialized ∧
    (runIngests events = true → ∃ n, 0 < n ∧ IngestEvent.ok n ∈ events) := by
  have hfold : ∀ (evs : List IngestEvent) (s : Bool),
      List.foldl applyIngest s evs = true →
      (s = true ∧ evs = []) ∨ ∃ n, 0 < n ∧ IngestEvent.ok n ∈ evs := by
    intro evs
    induction evs with
    | nil => intro s hs; exact Or.inl ⟨hs, rfl⟩
    | cons e rest ih =>
      intro s hs
      rcases ih (applyIngest s e) hs with h | ⟨n, hn, hmem⟩
      · cases e with
        | ok n =>
          refine Or.inr ⟨n, ?_, List.mem_cons_self _ _⟩
          have := h.1
          simpa [applyIngest] using this
        | failed => simp [applyIngest] at h
      · exact Or.inr ⟨n, hn, List.mem_cons_of_mem _ hmem⟩
  have hready : runIngests events = true → ∃ n, 0 < n ∧ IngestEvent.ok n ∈ events := by
    intro h
    rcases hfold events false h with h | h
    · exact absurd h.1 (by simp)
    · exact h
  refine ⟨?_, hready⟩
  have hfalse : runIngests events = false := by
    cases h : runIngests events
    · rfl
    · rcases hready h with ⟨n, hn, hmem⟩
      exact absurd (hnone n hmem) (by omega)
  simp [ragQuery, hfalse]

/-- Witness for C3: with no ingest events at all, a query fails with the
not-initialized error. -/
theorem query_requires_initialized_witness :
    (∀ n, IngestEvent.ok n ∈ ([] : List IngestEvent) → n = 0) ∧
    ragQuery (runIngests []) "班機延誤".data (fun _ => []) = .error .notInitialized :=
  ⟨by simp, (query_requires_initialized [] "班機延誤".data (fun _ => []) (by simp)).1⟩

/-- C4: clause classification is an ordered cascade — exclusion, then
procedure, then coverage, then general, first match wins; in particular any
content matching both an exclusion keyword and a coverage keyword
classifies as `exclusion`. -/
theorem classify_cascade_order (content : List Char) :
    (anySuffix exclusionAt content = true → classifyClauseType content = "exclusion") ∧
    (anySuffix exclusionAt content = false → anySuffix procedureAt content = true →
      classifyClauseType content = "procedure") ∧
    (anySuffix exclusionAt content = false → anySuffix procedureAt content = false →
      anySuffix coverageAt content = true → classifyClauseType content = "coverage") ∧
    (anySuffix exclusionAt content = false → anySuffix procedureAt content = false →
      anySuffix coverageAt content = false → classifyClauseType content = "general") ∧
    (anySuffix exclusionAt content = true → anySuffix coverageAt content = true →
      classifyClauseType content = "exclusion") := by
  refine ⟨?_, ?_, ?_, ?_, ?_⟩ <;> intros <;> simp_all [classifyClauseType]

/-- Witness for C4: "本保險不保障旅程延誤" matches both an exclusion keyword
(不保障) and a coverage keyword (旅程延誤) and classifies as `exclusion`. -/
theorem classify_cascade_order_witness :
    anySuffix exclusionAt "本保險不保障旅程延誤".data = true ∧
    anySuffix coverageAt "本保險不保障旅程延誤".data = true ∧
    classifyClauseType "本保險不保障旅程延誤".data = "exclusion" :=
  ⟨by decide, by decide,
   (classify_cascade_order "本保險不保障旅程延誤".data).2.2.2.2 (by decide) (by decide)⟩

/-- C8: on the input `"身分證字號：A123456789"`, `detect_and_mask_pii` returns
the masked string `"身分證字號：A********9"` (first and last character of the
match kept, interior replaced by the mask character) together with found
kinds `["pii_pattern_2", "taiwan_id"]`; consequently the masked output does
not contain `"A123456789"` and the found-kinds list contains `"taiwan_id"`. -/
theorem pii_masking_round_trip :
    detectAndMaskPii true "身分證字號：A123456789".data =
      ("身分證字號：A********9".data, ["pii_pattern_2", "taiwan_id"]) ∧
    containsSub (detectAndMaskPii true "身分證字號：A123456789".data).1 "A123456789".data
      = false ∧
    "taiwan_id" ∈ (detectAndMaskPii true "身分證字號：A123456789".data).2 ∧
    maskMatch "A123456789".data = "A********9".data := by
  refine ⟨by decide, by decide, by decide, by decide⟩

/-- Counterexample for C9 as stated: the string `"BBBBBBBBBB"` consists
100 % (far more than 80 %) of the single character `'B'`, yet
`check_resource_limits` passes it — the single-character check only
examines the fixed list `['A','a','1','0',' ','\n']`, and no length-2..5
substring occurs more than 1000 times. -/
theorem resource_limits_miss_unmonitored_char :
    (List.replicate 10 'B').length * 4 < (List.replicate 10 'B').count 'B' * 5 ∧
    checkResourceLimits securityMaxMemoryPerDocument (List.replicate 10 'B') =
      (true, "Resource limits check passed") := by
  refine ⟨by decide, by decide⟩

/-- C9 (amended): `check_resource_limits` fails for every content string in
which one of the six monitored characters `'A','a','1','0',' ','\n'`
accounts for more than 80 % of the length, and for every content string in
which some substring of length 2–5 starting within the first
`min(100, len − patlen)` positions occurs (non-overlapping) more than 1000
times. -/
theorem resource_limits_flag_repeated_patterns (maxMemoryPerDocument : Nat)
    (content : List Char)
    (h : (∃ ch ∈ monitoredChars, content.length * 4 < content.count ch * 5) ∨
         (∃ patternLen ∈ [2, 3, 4, 5], ∃ i, i < min 100 (content.length - patternLen) ∧
           1000 < pyCount (sliceNat content i (i + patternLen)) content)) :
    (checkResourceLimits maxMemoryPerDocument content).1 = false := by
  have hattack : detectRepeatedPatternAttack content = true := by
    unfold detectRepeatedPatternAttack
    rw [Bool.or_eq_true]
    rcases h with ⟨ch, hmem, hcnt⟩ | ⟨pl, hpl, i, hi, hcnt⟩
    · exact Or.inl (List.any_eq_true.mpr ⟨ch, hmem, by simpa using hcnt⟩)
    · refine Or.inr (List.any_eq_true.mpr ⟨pl, hpl, ?_⟩)
      exact List.any_eq_true.mpr ⟨i, List.mem_range.mpr hi, by simpa using hcnt⟩
  unfold checkResourceLimits
  by_cases hmem : maxMemoryPerDocument < utf8Length content * 5
  · simp [hmem]
  · simp [hmem, hattack]

/-- Witness for C9: ten `'A'`s (a monitored character at 100 %) fail the
resource-limit check. -/
theorem resource_limits_flag_repeated_patterns_witness :
    ((∃ ch ∈ monitoredChars,
        (List.replicate 10 'A').length * 4 < (List.replicate 10 'A').count ch * 5) ∨
      (∃ patternLen ∈ [2, 3, 4, 5], ∃ i,
        i < min 100 ((List.replicate 10 'A').length - patternLen) ∧
        1000 < pyCount (sliceNat (List.replicate 10 'A') i (i + patternLen))
          (List.replicate 10 'A'))) ∧
    (checkResourceLimits securityMaxMemoryPerDocument (List.replicate 10 'A')).1 = false :=
  ⟨Or.inl ⟨'A', by decide, by decide⟩,
   resource_limits_flag_repeated_patterns securityMaxMemoryPerDocument
     (List.replicate 10 'A') (Or.inl ⟨'A', by decide, by decide⟩)⟩

theorem batchesAux_flatMap_map {α β : Type} (f : α → β) (b : Nat) :
    ∀ (fuel : Nat) (l : List α), l.length ≤ fuel →
      (batchesAux b fuel l).flatMap (List.map f) = l.map f := by
  intro fuel
  induction fuel with
  | zero =>
    intro l hl
    rw [List.length_eq_zero.mp (Nat.le_zero.mp hl)]
    rfl
  | succ n ih =>
    intro l hl
    cases l with
    | nil => rfl
    | cons x rest =>
      have hb : 1 ≤ max b 1 := le_max_right b 1
      have hdrop : ((x :: rest).drop (max b 1)).length ≤ n := by
        simp only [List.length_drop, List.length_cons]
        simp only [List.length_cons] at hl
        omega
      calc (batchesAux b (n + 1) (x :: rest)).flatMap (List.map f)
          = ((x :: rest).take (max b 1)).map f ++
            (batchesAux b n ((x :: rest).drop (max b 1))).flatMap (List.map f) := by
            simp [batchesAux]
        _ = ((x :: rest).take (max b 1)).map f ++ ((x :: rest).drop (max b 1)).map f := by
            rw [ih _ hdrop]
        _ = (x :: rest).map f := by rw [← List.map_append, List.take_append_drop]

theorem batchesOf_flatMap_map {α β : Type} (f : α → β) (b : Nat) (l : List α) :
    (batchesOf b l).flatMap (List.map f) = l.map f :=
  batchesAux_flatMap_map f b l.length l le_rfl

theorem reassembleEmbeddings_eq_map (dimension : Nat) (f : List Char → List ℚ) :
    ∀ texts : List (List Char),
      reassembleEmbeddings dimension texts
        ((texts.filter (fun t => !(pyStrip t).isEmpty)).map (fun t => f (pyStrip t))) =
      texts.map (fun t =>
        if (pyStrip t).isEmpty then List.replicate dimension 0 else f (pyStrip t)) := by
  intro texts
  induction texts with
  | nil => rfl
  | cons t ts ih =>
    by_cases hblank : (pyStrip t).isEmpty
    · simp [reassembleEmbeddings, hblank, ih, List.isEmpty_iff.mp hblank]
    · simp [reassembleEmbeddings, hblank, ih, (List.isEmpty_iff (l := pyStrip t)).not.mp hblank]

/-- Counterexample for C7 as stated: on the input list `[" "]` (a single
whitespace-only text) `encode_batch` raises `EmbeddingError` instead of
returning a one-element list holding a zero vector. -/
theorem encode_batch_all_blank_errors :
    encodeBatch 1536 (fun v => v) (fun _ => []) 32 [" ".data] =
      .error "Cannot generate embeddings for all empty texts" := by
  rfl

/-- C7 (amended): whenever at least one input text is not empty or
whitespace-only, `encode_batch` returns a list of the same length as the
input, in input order, holding the zero vector of the service dimension at
exactly the blank positions and, at every other position, the provider's
vector for the stripped text passed through the source's defensive L2
re-normalization; when every text is blank it raises `EmbeddingError`
instead. -/
theorem encode_batch_structure (dimension : Nat) (normalize : List ℚ → List ℚ)
    (apiEmbed : List Char → List ℚ) (batchSize : Nat) (texts : List (List Char))
    (h : ∃ t ∈ texts, pyStrip t ≠ []) :
    encodeBatch dimension normalize apiEmbed batchSize texts =
      .ok (texts.map (fun t =>
        if (pyStrip t).isEmpty then List.replicate dimension 0
        else normalize (apiEmbed (pyStrip t)))) := by
  obtain ⟨t0, ht0mem, ht0⟩ := h
  have htexts : texts ≠ [] := by rintro rfl; exact absurd ht0mem (List.not_mem_nil t0)
  have hne : (texts.filter (fun t => !(pyStrip t).isEmpty)).map pyStrip ≠ [] := by
    simp only [ne_eq, List.map_eq_nil_iff, List.filter_eq_nil_iff]
    push_neg
    exact ⟨t0, ht0mem, by simpa [List.isEmpty_iff] using ht0⟩
  unfold encodeBatch
  simp only [htexts, if_false, hne, reduceIte]
  congr 1
  have hflat : (batchesOf (min batchSize 2048)
        ((texts.filter (fun t => !(pyStrip t).isEmpty)).map pyStrip)).flatMap
        (fun batch => batch.map (fun t => normalize (apiEmbed t))) =
      (texts.filter (fun t => !(pyStrip t).isEmpty)).map
        (fun t => normalize (apiEmbed (pyStrip t))) := by
    rw [batchesOf_flatMap_map (fun t => normalize (apiEmbed t)) (min batchSize 2048)]
    rw [List.map_map]
    rfl
  rw [hflat]
  exact reassembleEmbeddings_eq_map dimension (fun t => normalize (apiEmbed t)) texts

/-- Witness for C7 at a concrete provider: one blank and one non-blank
text; the blank position receives the zero vector, the other the
(identity-normalized) provider vector. -/
theorem encode_batch_structure_witness :
    (∃ t ∈ [" ".data, "abc".data], pyStrip t ≠ []) ∧
    encodeBatch 2 (fun v => v) (fun _ => [1, 0]) 32 [" ".data, "abc".data] =
      .ok ([" ".data, "abc".data].map (fun t =>
        if (pyStrip t).isEmpty then List.replicate 2 0
        else (fun _ => ([1, 0] : List ℚ)) (pyStrip t))) :=
  ⟨⟨"abc".data, by decide, by decide⟩,
   encode_batch_structure 2 (fun v => v) (fun _ => [1, 0]) 32 [" ".data, "abc".data]
     ⟨"abc".data, by decide, by decide⟩⟩

theorem slidingAux_some_of_fuel (chunkSize chunkOverlap : Nat)
    (hso : chunkOverlap < chunkSize) (text sectionTitle clauseTitle : List Char)
    (numberOf : Nat → List Char) (startPos : Nat) :
    ∀ (fuel : Nat) (pos : Int) (chunkIndex : Nat), (text.length : Int) - pos ≤ fuel →
      ∃ r, slidingAux chunkSize chunkOverlap text sectionTitle clauseTitle numberOf startPos
        fuel pos chunkIndex = some r := by
  intro fuel
  induction fuel with
  | zero =>
    intro pos ci hfuel
    have hnot : ¬(pos < (text.length : Int)) := by omega
    exact ⟨[], by simp [slidingAux, hnot]⟩
  | succ n ih =>
    intro pos ci hfuel
    by_cases hp : pos < (text.length : Int)
    · have hstep : (text.length : Int) - (pos + ((chunkSize : Int) - (chunkOverlap : Int))) ≤ n := by
        omega
      obtain ⟨r0, hr0⟩ := ih (pos + ((chunkSize : Int) - (chunkOverlap : Int))) ci hstep
      obtain ⟨r1, hr1⟩ := ih (pos + ((chunkSize : Int) - (chunkOverlap : Int))) (ci + 1) hstep
      by_cases hemp : (pyStrip (pySlice text pos
          (min (pos + (chunkSize : Int)) (text.length : Int)))).isEmpty
      · exact ⟨r0, by simp only [slidingAux, hp, if_true, hemp]; exact hr0⟩
      · have hunf : slidingAux chunkSize chunkOverlap text sectionTitle clauseTitle numberOf
            startPos (n + 1) pos ci =
            (slidingAux chunkSize chunkOverlap text sectionTitle clauseTitle numberOf startPos
              n (pos + ((chunkSize : Int) - (chunkOverlap : Int))) (ci + 1)).map
              (fun r => createChunk
                (pyStrip (pySlice text pos (min (pos + (chunkSize : Int)) (text.length : Int))))
                sectionTitle (numberOf ci) clauseTitle ((startPos : Int) + pos)
                ((startPos : Int) + min (pos + (chunkSize : Int)) (text.length : Int)) :: r) := by
          simp only [slidingAux, hp, if_true, hemp, Bool.false_eq_true, if_false]
        rw [hunf, hr1]
        exact ⟨_, rfl⟩
    · exact ⟨[], by simp [slidingAux, hp]⟩

theorem slidingAux_none_of_no_advance (chunkSize chunkOverlap : Nat)
    (hso : chunkSize ≤ chunkOverlap) (text sectionTitle clauseTitle : List Char)
    (numberOf : Nat → List Char) (startPos : Nat) (htext : text ≠ []) :
    ∀ (fuel : Nat) (pos : Int) (chunkIndex : Nat), pos ≤ 0 →
      slidingAux chunkSize chunkOverlap text sectionTitle clauseTitle numberOf startPos
        fuel pos chunkIndex = none := by
  have hlen : 0 < (text.length : Int) := by
    have := List.length_pos.mpr htext
    omega
  intro fuel
  induction fuel with
  | zero =>
    intro pos ci hpos
    have hp : pos < (text.length : Int) := by omega
    simp [slidingAux, hp]
  | succ n ih =>
    intro pos ci hpos
    have hp : pos < (text.length : Int) := by omega
    have hnext : pos + ((chunkSize : Int) - (chunkOverlap : Int)) ≤ 0 := by omega
    by_cases hemp : (pyStrip (pySlice text pos
        (min (pos + (chunkSize : Int)) (text.length : Int)))).isEmpty
    · simp only [slidingAux, hp, if_true, hemp]
      exact ih _ ci hnext
    · simp only [slidingAux, hp, if_true, hemp, Bool.false_eq_true, if_false,
        ih _ (ci + 1) hnext]
      rfl

/-- C10: with `chunk_overlap < chunk_size` (as in the defaults 26 < 256)
the sliding-window loop advances by the positive step
`chunk_size − chunk_overlap` each iteration and therefore terminates within
`len(text) + 1` iterations on every finite text; with
`chunk_overlap ≥ chunk_size` the position never advances past 0 on
non-empty text and the loop never completes, however much fuel it gets. -/
theorem sliding_window_termination (chunkSize chunkOverlap : Nat)
    (text sectionTitle clauseTitle : List Char) (numberOf : Nat → List Char) (startPos : Nat) :
    (chunkOverlap < chunkSize →
      0 < (chunkSize : Int) - (chunkOverlap : Int) ∧
      ∃ r, slidingAux chunkSize chunkOverlap text sectionTitle clauseTitle numberOf startPos
        (text.length + 1) 0 0 = some r) ∧
    (chunkSize ≤ chunkOverlap → text ≠ [] →
      ∀ (fuel chunkIndex : Nat),
        slidingAux chunkSize chunkOverlap text sectionTitle clauseTitle numberOf startPos
          fuel 0 chunkIndex = none) := by
  constructor
  · intro hso
    refine ⟨by omega, ?_⟩
    exact slidingAux_some_of_fuel chunkSize chunkOverlap hso text sectionTitle clauseTitle
      numberOf startPos (text.length + 1) 0 0 (by omega)
  · intro hso htext fuel ci
    exact slidingAux_none_of_no_advance chunkSize chunkOverlap hso text sectionTitle
      clauseTitle numberOf startPos htext fuel 0 ci le_rfl

/-- Witness for C10 at the default parameters 256/26 on a concrete text
(first part), and at 256/256 on the same non-empty text (second part). -/
theorem sliding_window_termination_witness :
    (0 < (256 : Int) - (26 : Int) ∧
      ∃ r, slidingAux 256 26 "abc".data [] [] (fun _ => []) 0
        ("abc".data.length + 1) 0 0 = some r) ∧
    slidingAux 256 256 "abc".data [] [] (fun _ => []) 0 7 0 0 = none :=
  ⟨(sliding_window_termination 256 26 "abc".data [] [] (fun _ => []) 0).1 (by decide),
   (sliding_window_termination 256 256 "abc".data [] [] (fun _ => []) 0).2 le_rfl
     (by decide) 7 0⟩

theorem flatMap_congr_mem {α β : Type} (l : List α) (f g : α → List β)
    (h : ∀ a ∈ l, f a = g a) : l.flatMap f = l.flatMap g := by
  induction l with
  | nil => rfl
  | cons x xs ih =>
    simp only [List.flatMap_cons]
    rw [h x (List.mem_cons_self x xs), ih (fun a ha => h a (List.mem_cons_of_mem x ha))]

theorem enumFrom_map_flatMap {α β γ : Type} (f : α → β) (g : Nat × β → List γ) :
    ∀ (n : Nat) (l : List α),
      ((l.map f).enumFrom n).flatMap g = (l.enumFrom n).flatMap (fun p => g (p.1, f p.2)) := by
  intro n l
  induction l generalizing n with
  | nil => rfl
  | cons x xs ih =>
    simp only [List.map_cons, List.enumFrom_cons, List.flatMap_cons]
    rw [ih (n + 1)]

set_option maxRecDepth 20000 in
/-- Counterexample for C5 as stated: `c5Clause` is longer than the default
`chunk_size` and has exactly two sub-clause boundaries, so it is split on
them; its first fragment strips to exactly 10 characters — *not* "under 10
characters" — yet the code discards it (the source keeps only fragments
with `len > 10`), emitting a single chunk instead of two. -/
theorem split_long_clause_drops_ten_char_fragment :
    defaultRetrievalConfig.chunkSize < c5Clause.length ∧
    subClauseFragments c5Clause = [(0, 11), (11, 273)] ∧
    (pyStrip (sliceNat c5Clause 0 11)).length = 10 ∧
    ¬((pyStrip (sliceNat c5Clause 0 11)).length < 10) ∧
    (splitLongClause defaultRetrievalConfig c5Clause "3".data [] [] 0).map
      (fun c => c.content) = [pyStrip (sliceNat c5Clause 11 273)] := by
  refine ⟨by decide, by decide, by decide, by decide, by decide⟩

/-- C5 (amended): a clause longer than `chunk_size` with at least two
sub-clause boundaries is split exactly on those boundaries, one chunk per
fragment, discarding exactly the fragments whose stripped length is at most
10 characters (i.e. under 11 — a fragment of exactly 10 characters is also
dropped), with chunks numbered `<clause>.<boundary index+1>`; with fewer
than two boundaries the sliding window is applied instead. -/
theorem split_long_clause_boundaries (cfg : RetrievalConfig)
    (clauseText clauseNumber clauseTitle sectionTitle : List Char) (clauseStart : Nat)
    (_hlong : cfg.chunkSize < clauseText.length) :
    (2 ≤ (finditFrom subClauseMatcher clauseText).length →
      splitLongClause cfg clauseText clauseNumber clauseTitle sectionTitle clauseStart =
        ((subClauseFragments clauseText).enum).flatMap (fun p =>
          if 10 < (pyStrip (sliceNat clauseText p.2.1 p.2.2)).length then
            [createChunk (pyStrip (sliceNat clauseText p.2.1 p.2.2)) sectionTitle
              (clauseNumber ++ '.' :: (toString (p.1 + 1)).data) clauseTitle
              ((clauseStart + p.2.1 : Nat) : Int) ((clauseStart + p.2.2 : Nat) : Int)]
          else [])) ∧
    ((finditFrom subClauseMatcher clauseText).length < 2 →
      splitLongClause cfg clauseText clauseNumber clauseTitle sectionTitle clauseStart =
        slidingWindowChunk cfg clauseText clauseNumber clauseTitle sectionTitle clauseStart) := by
  constructor
  · intro h2
    have h1 : 1 < (finditFrom subClauseMatcher clauseText).length := h2
    unfold splitLongClause
    simp only [h1, if_true]
    unfold subClauseFragments List.enum
    rw [enumFrom_map_flatMap]
    refine flatMap_congr_mem _ _ _ ?_
    rintro ⟨i, s, e, a⟩ _
    by_cases h10 : 10 < (pyStrip (sliceNat clauseText s e)).length
    · have hne : (pyStrip (sliceNat clauseText s e)).isEmpty = false := by
        have : pyStrip (sliceNat clauseText s e) ≠ [] := by
          intro hnil
          rw [hnil] at h10
          simp at h10
        simpa [List.isEmpty_iff] using this
      simp [hne, h10]
    · simp [h10]
  · intro hlt
    have h1 : ¬(1 < (finditFrom subClauseMatcher clauseText).length) := by omega
    unfold splitLongClause
    simp only [h1, if_false]

set_option maxRecDepth 20000 in
/-- Witness for C5 at `c5Clause`: the amended split equation instantiated
and evaluated — the single emitted chunk is the second fragment. -/
theorem split_long_clause_boundaries_witness :
    defaultRetrievalConfig.chunkSize < c5Clause.length ∧
    2 ≤ (finditFrom subClauseMatcher c5Clause).length ∧
    splitLongClause defaultRetrievalConfig c5Clause "3".data [] [] 0 =
      ((subClauseFragments c5Clause).enum).flatMap (fun p =>
        if 10 < (pyStrip (sliceNat c5Clause p.2.1 p.2.2)).length then
          [createChunk (pyStrip (sliceNat c5Clause p.2.1 p.2.2)) []
            ("3".data ++ '.' :: (toString (p.1 + 1)).data) []
            ((0 + p.2.1 : Nat) : Int) ((0 + p.2.2 : Nat) : Int)]
        else []) :=
  ⟨by decide, by decide,
   (split_long_clause_boundaries defaultRetrievalConfig c5Clause "3".data [] [] 0
     (by decide)).1 (by decide)⟩

/-! ### Slice and strip facts used by the offset invariant -/

theorem sliceNat_sliceNat (T : List Char) (base e0 a b : Nat) (hb : b ≤ e0 - base) :
    sliceNat (sliceNat T base e0) a b = sliceNat T (base + a) (base + b) := by
  unfold sliceNat
  rw [List.drop_take, List.drop_drop, List.take_take]
  congr 1
  omega

theorem sliceNat_prefix_eq {Sp S0 : List Char} (h : Sp <+: S0) (a b : Nat)
    (hb : b ≤ Sp.length) : sliceNat Sp a b = sliceNat S0 a b := by
  obtain ⟨r, rfl⟩ := h
  unfold sliceNat
  by_cases ha : a ≤ Sp.length
  · rw [List.drop_append_eq_append_drop, List.take_append_eq_append_take]
    have h1 : (a - Sp.length) = 0 := by omega
    have h2 : b - a - (List.drop a Sp).length = 0 := by
      simp only [List.length_drop]
      omega
    rw [h1, List.drop_zero, h2, List.take_zero, List.append_nil]
  · have hba : b - a = 0 := by omega
    simp [hba]

theorem sliceNat_length_le (T : List Char) (a b : Nat) :
    (sliceNat T a b).length ≤ b - a := by
  unfold sliceNat
  simp only [List.length_take, List.length_drop]
  omega

theorem sliceNat_ne_nil {T : List Char} {a b : Nat} (h : sliceNat T a b ≠ []) :
    a < b ∧ a < T.length := by
  by_contra hcon
  apply h
  unfold sliceNat
  rcases Nat.lt_or_ge a b with hab | hab
  · have ha : T.length ≤ a := by omega
    rw [List.drop_eq_nil_of_le ha]
    simp
  · have : b - a = 0 := by omega
    simp [this]

theorem pyStrip_prefix {l : List Char} (h : ∀ c, l.head? = some c → isPySpace c = false) :
    pyStrip l <+: l := by
  have hdw : l.dropWhile isPySpace = l := by
    cases l with
    | nil => rfl
    | cons c cs =>
      rw [List.dropWhile_cons]
      simp [h c rfl]
  unfold pyStrip
  rw [hdw]
  have hsuf : (l.reverse.dropWhile isPySpace) <:+ l.reverse := List.dropWhile_suffix isPySpace
  have := List.reverse_prefix.mpr hsuf
  simpa using this

theorem pyStrip_length_le (l : List Char) : (pyStrip l).length ≤ l.length := by
  unfold pyStrip
  have h1 : (l.dropWhile isPySpace) <:+ l := List.dropWhile_suffix isPySpace
  have h2 : ((l.dropWhile isPySpace).reverse.dropWhile isPySpace) <:+
      (l.dropWhile isPySpace).reverse := List.dropWhile_suffix isPySpace
  have := h2.length_le
  simp only [List.length_reverse] at this ⊢
  exact le_trans this h1.length_le

theorem pySlice_eq_sliceNat (T : List Char) (p q : Int) (hp : 0 ≤ p) (hq : 0 ≤ q) :
    pySlice T p q = sliceNat T p.toNat q.toNat := by
  unfold pySlice pyIdx sliceNat
  have hp2 : ¬(p < 0) := by omega
  have hq2 : ¬(q < 0) := by omega
  simp only [hp2, if_false, hq2]
  by_cases hpl : p.toNat ≤ T.length
  · have hmin : min p.toNat T.length = p.toNat := by omega
    rw [hmin]
    by_cases hql : q.toNat ≤ T.length
    · have : min q.toNat T.length = q.toNat := by omega
      rw [this]
    · have hm2 : min q.toNat T.length = T.length := by omega
      rw [hm2]
      have hlen : (T.drop p.toNat).length = T.length - p.toNat := by simp
      rw [List.take_of_length_le (by omega), List.take_of_length_le (by omega)]
  · have hm : min p.toNat T.length = T.length := by omega
    have hdrop1 : T.drop (min p.toNat T.length) = [] := by
      rw [hm]
      exact List.drop_length T
    have hdrop2 : T.drop p.toNat = [] := List.drop_eq_nil_of_le (by omega)
    rw [hdrop1, hdrop2]
    simp

/-! ### Chained-bounded finditer results -/

theorem chainBnd_mono {α : Type} {N b bl : Nat} {l : List (Nat × Nat × α)} (h : bl ≤ b) :
    ChainBnd N b l → ChainBnd N bl l := by
  cases l with
  | nil => intro; trivial
  | cons x rest =>
    obtain ⟨s, e, a⟩ := x
    rintro ⟨h1, h2, h3, h4⟩
    exact ⟨le_trans h h1, h2, h3, h4⟩

theorem chainBnd_map {α β : Type} (g : Nat × Nat × α → β) {N : Nat} :
    ∀ {b : Nat} {l : List (Nat × Nat × α)}, ChainBnd N b l →
      ChainBnd N b (l.map (fun x => (x.1, x.2.1, g x))) := by
  intro b l
  induction l generalizing b with
  | nil => intro; trivial
  | cons x rest ih =>
    obtain ⟨s, e, a⟩ := x
    rintro ⟨h1, h2, h3, h4⟩
    exact ⟨h1, h2, h3, ih h4⟩

theorem finditAux_chain {α : Type} (m : Option Char → List Char → Option (List Char × α))
    (glob : List Char)
    (hm : ∀ prev cs r a, m prev cs = some (r, a) → r.length < cs.length) :
    ∀ (fuel pos : Nat), ChainBnd glob.length pos (finditAux m glob fuel pos) := by
  intro fuel
  induction fuel with
  | zero => intro pos; trivial
  | succ n ih =>
    intro pos
    by_cases hp : pos < glob.length
    · rcases hmm : m (prevAt glob pos) (glob.drop pos) with _ | ⟨rest, a⟩
      · have : finditAux m glob (n + 1) pos = finditAux m glob n (pos + 1) := by
          simp [finditAux, hp, hmm]
        rw [this]
        exact chainBnd_mono (by omega) (ih (pos + 1))
      · have hlt : rest.length < (glob.drop pos).length := hm _ _ _ _ hmm
        rw [List.length_drop] at hlt
        have hk : 1 ≤ glob.length - pos - rest.length := by omega
        have hmax : max (glob.length - pos - rest.length) 1 =
            glob.length - pos - rest.length := by omega
        have hunf : finditAux m glob (n + 1) pos =
            (pos, pos + (glob.length - pos - rest.length), a) ::
              finditAux m glob n (pos + (glob.length - pos - rest.length)) := by
          simp [finditAux, hp, hmm, hmax]
        rw [hunf]
        exact ⟨le_rfl, by omega, by omega, ih _⟩
    · have : finditAux m glob (n + 1) pos = [] := by simp [finditAux, hp]
      rw [this]
      trivial

theorem finditAux_mem_matcher {α : Type} (m : Option Char → List Char → Option (List Char × α))
    (glob : List Char) :
    ∀ (fuel pos : Nat) (s e : Nat) (a : α), (s, e, a) ∈ finditAux m glob fuel pos →
      ∃ r, m (prevAt glob s) (glob.drop s) = some (r, a) := by
  intro fuel
  induction fuel with
  | zero => intro pos s e a h; simp [finditAux] at h
  | succ n ih =>
    intro pos s e a h
    by_cases hp : pos < glob.length
    · rcases hmm : m (prevAt glob pos) (glob.drop pos) with _ | ⟨rest, a0⟩
      · simp only [finditAux, hp, if_true, hmm] at h
        exact ih _ _ _ _ h
      · simp only [finditAux, hp, if_true, hmm] at h
        rcases List.mem_cons.mp h with heq | hmem
        · have hs : s = pos := congrArg (fun x => x.1) heq
          have ha : a = a0 := congrArg (fun x => x.2.2) heq
          subst hs; subst ha
          exact ⟨rest, hmm⟩
        · exact ih _ _ _ _ hmem
    · simp only [finditAux, hp, if_false] at h
      simp at h

theorem spansWith_bounds {α : Type} {N : Nat} :
    ∀ {b : Nat} {l : List (Nat × Nat × α)}, ChainBnd N b l →
      ∀ s e a, (s, e, a) ∈ spansWith N l → b ≤ s ∧ s < e ∧ e ≤ N := by
  intro b l
  induction l generalizing b with
  | nil => intro _ s e a h; simp [spansWith] at h
  | cons x rest ih =>
    obtain ⟨s0, e0, a0⟩ := x
    rintro ⟨h1, h2, h3, h4⟩ s e a hmem
    rw [show spansWith N ((s0, e0, a0) :: rest) =
      (s0, headStartOr N rest, a0) :: spansWith N rest from rfl] at hmem
    rcases List.mem_cons.mp hmem with heq | hmem2
    · have hs : s = s0 := congrArg (fun x => x.1) heq
      have he : e = headStartOr N rest := congrArg (fun x => x.2.1) heq
      subst hs
      rw [he]
      cases rest with
      | nil => exact ⟨h1, by simp only [headStartOr]; omega, by simp only [headStartOr]; omega⟩
      | cons y rest2 =>
        obtain ⟨s1, e1, a1⟩ := y
        obtain ⟨h5, h6, h7, _⟩ := h4
        exact ⟨h1, by simp only [headStartOr]; omega, by simp only [headStartOr]; omega⟩
    · have := ih h4 s e a hmem2
      exact ⟨by omega, this.2⟩

theorem spansWith_mem_orig {α : Type} {N : Nat} :
    ∀ {l : List (Nat × Nat × α)} (s e : Nat) (a : α), (s, e, a) ∈ spansWith N l →
      ∃ e0, (s, e0, a) ∈ l := by
  intro l
  induction l with
  | nil => intro s e a h; simp [spansWith] at h
  | cons x rest ih =>
    obtain ⟨s0, e0, a0⟩ := x
    intro s e a hmem
    rw [show spansWith N ((s0, e0, a0) :: rest) =
      (s0, headStartOr N rest, a0) :: spansWith N rest from rfl] at hmem
    rcases List.mem_cons.mp hmem with heq | hmem2
    · have hs : s = s0 := congrArg (fun x => x.1) heq
      have ha : a = a0 := congrArg (fun x => x.2.2) heq
      subst hs; subst ha
      exact ⟨e0, List.mem_cons_self _ _⟩
    · obtain ⟨e1, he1⟩ := ih s e a hmem2
      exact ⟨e1, List.mem_cons_of_mem _ he1⟩

theorem mem_of_mem_enumFrom {α : Type} :
    ∀ (l : List α) (n : Nat) (p : Nat × α), p ∈ l.enumFrom n → p.2 ∈ l := by
  intro l
  induction l with
  | nil => intro n p h; simp at h
  | cons x xs ih =>
    intro n p h
    rw [List.enumFrom_cons] at h
    rcases List.mem_cons.mp h with heq | hmem
    · subst heq; exact List.mem_cons_self _ _
    · exact List.mem_cons_of_mem _ (ih (n + 1) p hmem)

theorem subClauseMatcher_progress (prev : Option Char) (cs r : List Char) (a : Unit)
    (h : subClauseMatcher prev cs = some (r, a)) : r.length < cs.length := by
  unfold subClauseMatcher at h
  dsimp only at h
  split at h
  · split at h
    · split at h
      · simp at h
      · split at h
        · rename_i hls x1 r2 heq1 hn x2 r3 heq2
          injection h with hpair
          have hr : r3 = r := congrArg (fun y => y.1) hpair
          subst hr
          have e1 := congrArg List.length heq1
          have e2 := congrArg List.length heq2
          simp only [List.length_drop, List.length_cons] at e1 e2
          omega
        · simp at h
    · split at h
      · simp at h
      · split at h
        · rename_i hls x1 r2 heq1 hn x2 r3 heq2
          injection h with hpair
          have hr : r3 = r := congrArg (fun y => y.1) hpair
          subst hr
          have e1 := congrArg List.length heq1
          have e2 := congrArg List.length heq2
          simp only [List.length_drop, List.length_cons] at e1 e2
          omega
        · simp at h
    · split at h
      · simp at h
      · split at h
        · split at h
          · rename_i hls x0 hn1 hn2 hd rest c rest2 heq hcls
            injection h with hpair
            have hr : rest2 = r := congrArg (fun y => y.1) hpair
            subst hr
            have e := congrArg List.length heq
            simp only [List.length_drop, List.length_cons] at e
            omega
          · simp at h
        · simp at h
  · simp at h

theorem sectionMarkerAfterWs_progress (cs r : List Char)
    (h : sectionMarkerAfterWs cs = some r) : r.length < cs.length := by
  unfold sectionMarkerAfterWs at h
  dsimp only at h
  split at h
  · split at h
    · simp at h
    · split at h
      · split at h
        · rename_i cs0 r1 heq1 hn rest c rest2 heq hcls
          injection h with hr
          subst hr
          have e1 := congrArg List.length heq1
          have e := congrArg List.length heq
          simp only [List.length_drop, List.length_cons] at e1 e
          omega
        · simp at h
      · simp at h
  · split at h
    · simp at h
    · split at h
      · rename_i cs0 hno hb x r3 heq
        injection h with hr
        subst hr
        have e := congrArg List.length heq
        simp only [List.length_drop, List.length_cons] at e
        omega
      · simp at h

theorem sectionBreakMatcher_progress (prev : Option Char) (cs r : List Char) (a : Unit)
    (h : sectionBreakMatcher prev cs = some (r, a)) : r.length < cs.length := by
  unfold sectionBreakMatcher at h
  split at h
  · rcases hmk : sectionMarkerAfterWs cs with _ | r0
    · rw [hmk] at h; simp at h
    · rw [hmk] at h
      injection h with hpair
      have hr : r0 = r := congrArg (fun y => y.1) hpair
      subst hr
      exact sectionMarkerAfterWs_progress cs _ hmk
  · split at h
    · rename_i rest
      rcases hmk : sectionMarkerAfterWs rest with _ | r0
      · rw [hmk] at h; simp at h
      · rw [hmk] at h
        injection h with hpair
        have hr : r0 = r := congrArg (fun y => y.1) hpair
        subst hr
        have := sectionMarkerAfterWs_progress rest _ hmk
        simp only [List.length_cons]
        omega
    · simp at h

theorem clauseHeaderMatcher_progress (prev : Option Char) (cs r : List Char)
    (g : List Char × List Char) (h : clauseHeaderMatcher prev cs = some (r, g)) :
    r.length < cs.length := by
  unfold clauseHeaderMatcher at h
  dsimp only at h
  split at h
  · split at h
    · simp at h
    · split at h
      · rename_i cs0 r1 hd x r5 heq
        injection h with hpair
        have hr := congrArg (fun y => y.1) hpair
        have e := congrArg List.length heq
        have e2 := congrArg List.length hr
        simp only [List.length_drop, List.length_cons] at e e2
        simp only [List.length_cons]
        omega
      · simp at h
  · simp at h

theorem clauseHeaderMatcher_head (prev : Option Char) (cs r : List Char)
    (g : List Char × List Char) (h : clauseHeaderMatcher prev cs = some (r, g)) :
    ∃ t, cs = '第' :: t := by
  unfold clauseHeaderMatcher at h
  dsimp only at h
  split at h
  · rename_i cs0 r1
    exact ⟨r1, rfl⟩
  · simp at h

theorem slidingAux_chunkFrom (chunkSize chunkOverlap : Nat) (hso : chunkOverlap < chunkSize)
    (S sectionTitle clauseTitle : List Char) (numberOf : Nat → List Char) (base : Nat) :
    ∀ (fuel : Nat) (pos : Int) (ci : Nat) (r : List Document), 0 ≤ pos →
      slidingAux chunkSize chunkOverlap S sectionTitle clauseTitle numberOf base
        fuel pos ci = some r →
      ∀ c ∈ r, ChunkFrom S base c := by
  intro fuel
  induction fuel with
  | zero =>
    intro pos ci r hpos h c hc
    simp only [slidingAux] at h
    split at h
    · simp at h
    · injection h with hr
      subst hr
      simp at hc
  | succ n ih =>
    intro pos ci r hpos h c hc
    by_cases hp : pos < (S.length : Int)
    · have hstep : (0 : Int) ≤ pos + ((chunkSize : Int) - (chunkOverlap : Int)) := by omega
      by_cases hemp : (pyStrip (pySlice S pos
          (min (pos + (chunkSize : Int)) (S.length : Int)))).isEmpty
      · simp only [slidingAux, hp, if_true, hemp] at h
        exact ih _ _ _ hstep h c hc
      · simp only [slidingAux, hp, if_true, hemp, Bool.false_eq_true, if_false] at h
        rcases Option.map_eq_some'.mp h with ⟨r0, haux, hr⟩
        subst hr
        rcases List.mem_cons.mp hc with hceq | hcr
        · subst hceq
          have hminpos : (0 : Int) < min (pos + (chunkSize : Int)) (S.length : Int) := by
            omega
          have hposlt : pos < min (pos + (chunkSize : Int)) (S.length : Int) := by omega
          have hminnn : (0 : Int) ≤ min (pos + (chunkSize : Int)) (S.length : Int) := by omega
          refine ⟨pos.toNat, (min (pos + (chunkSize : Int)) (S.length : Int)).toNat,
            ?_, ?_, ?_, ?_, ?_, ?_⟩
          · show ((base : Int) + pos) = ((base + pos.toNat : Nat) : Int)
            push_cast
            rw [Int.toNat_of_nonneg hpos]
          · show ((base : Int) + min (pos + (chunkSize : Int)) (S.length : Int)) =
              ((base + (min (pos + (chunkSize : Int)) (S.length : Int)).toNat : Nat) : Int)
            push_cast
            rw [Int.toNat_of_nonneg hminnn]
          · exact (Int.toNat_lt_toNat hminpos).mpr hposlt
          · have : min (pos + (chunkSize : Int)) (S.length : Int) ≤ (S.length : Int) := by
              omega
            exact Int.toNat_le.mpr this
          · show pyStrip (pySlice S pos (min (pos + (chunkSize : Int)) (S.length : Int))) =
              pyStrip (sliceNat S pos.toNat
                (min (pos + (chunkSize : Int)) (S.length : Int)).toNat)
            rw [pySlice_eq_sliceNat S pos _ hpos hminnn]
          · rfl
        · exact ih _ _ _ hstep haux c hcr
    · simp only [slidingAux, hp, if_false] at h
      injection h with hr
      subst hr
      simp at hc

theorem chainBnd_subClause (S : List Char) :
    ChainBnd S.length 0 (finditFrom subClauseMatcher S) := by
  unfold finditFrom
  exact finditAux_chain subClauseMatcher S
    (fun prev cs r a h => subClauseMatcher_progress prev cs r a h) (S.length + 1) 0

theorem splitLongClause_chunkFrom (cfg : RetrievalConfig)
    (hso : cfg.chunkOverlap < cfg.chunkSize)
    (S num title secT : List Char) (base : Nat) (c : Document)
    (hc : c ∈ splitLongClause cfg S num title secT base) : ChunkFrom S base c := by
  unfold splitLongClause at hc
  dsimp only at hc
  split at hc
  · rcases List.mem_flatMap.mp hc with ⟨p, hpmem, hcp⟩
    obtain ⟨i, s, e, u⟩ := p
    dsimp only at hcp
    split at hcp
    · rcases List.mem_singleton.mp hcp with rfl
      have hmem2 : ((s, e, u) : Nat × Nat × Unit) ∈
          spansWith S.length (finditFrom subClauseMatcher S) :=
        mem_of_mem_enumFrom _ 0 _ hpmem
      have hb := spansWith_bounds (chainBnd_subClause S) s e u hmem2
      exact ⟨s, e, rfl, rfl, hb.2.1, hb.2.2, rfl, rfl⟩
    · simp at hcp
  · unfold slidingWindowChunk at hc
    rcases haux : slidingAux cfg.chunkSize cfg.chunkOverlap S secT title
        (fun i => num ++ '_' :: (toString i).data) base (S.length + 1) 0 0 with _ | r0
    · rw [haux] at hc
      simp at hc
    · rw [haux] at hc
      simp only [Option.getD_some] at hc
      exact slidingAux_chunkFrom cfg.chunkSize cfg.chunkOverlap hso S secT title
        (fun i => num ++ '_' :: (toString i).data) base (S.length + 1) 0 0 r0 le_rfl haux c hc

theorem chainBnd_clause (S : List Char) :
    ChainBnd S.length 0 (finditFrom clauseHeaderMatcher S) := by
  unfold finditFrom
  exact finditAux_chain clauseHeaderMatcher S
    (fun prev cs r a h => clauseHeaderMatcher_progress prev cs r a h) (S.length + 1) 0

theorem chunkSection_chunkFrom (cfg : RetrievalConfig)
    (hso : cfg.chunkOverlap < cfg.chunkSize) (S secT : List Char) (δ : Nat) (c : Document)
    (hc : c ∈ chunkSection cfg S secT δ) : ChunkFrom S δ c := by
  unfold chunkSection at hc
  dsimp only at hc
  split at hc
  · unfold fixedSizeChunkingWithMetadata at hc
    rcases haux : slidingAux cfg.chunkSize cfg.chunkOverlap S secT []
        (fun i => "chunk_".data ++ (toString i).data) δ (S.length + 1) 0 0 with _ | r0
    · rw [haux] at hc
      simp at hc
    · rw [haux] at hc
      simp only [Option.getD_some] at hc
      exact slidingAux_chunkFrom cfg.chunkSize cfg.chunkOverlap hso S secT []
        (fun i => "chunk_".data ++ (toString i).data) δ (S.length + 1) 0 0 r0 le_rfl haux c hc
  · rcases List.mem_flatMap.mp hc with ⟨p, hpmem, hcp⟩
    obtain ⟨s, e, num, title⟩ := p
    dsimp only at hcp
    have hbnds := spansWith_bounds (chainBnd_clause S) s e (num, title) hpmem
    split at hcp
    · simp at hcp
    · split at hcp
      · obtain ⟨a, b, hst, hen, hab, hble, hcont, hlen⟩ :=
          splitLongClause_chunkFrom cfg hso _ num (pyStrip title) secT (δ + s) c hcp
        obtain ⟨e0, hmem0⟩ := spansWith_mem_orig s e (num, title) hpmem
        have hmatch : ∃ r, clauseHeaderMatcher (prevAt S s) (S.drop s) =
            some (r, (num, title)) := by
          unfold finditFrom at hmem0
          exact finditAux_mem_matcher clauseHeaderMatcher S (S.length + 1) 0 s e0
            (num, title) hmem0
        obtain ⟨rm, hmr⟩ := hmatch
        obtain ⟨t, ht⟩ := clauseHeaderMatcher_head _ _ _ _ hmr
        have hS0 : sliceNat S s e = '第' :: t.take (e - s - 1) := by
          unfold sliceNat
          rw [ht, show e - s = (e - s - 1) + 1 by omega]
          rfl
        have hpre : pyStrip (sliceNat S s e) <+: sliceNat S s e := by
          refine pyStrip_prefix ?_
          intro c0 hc0
          rw [hS0] at hc0
          injection hc0 with hc1
          rw [← hc1]
          decide
        have hb2 : b ≤ e - s := by
          have h3 := pyStrip_length_le (sliceNat S s e)
          have h4 := sliceNat_length_le S s e
          omega
        have h1 : sliceNat (pyStrip (sliceNat S s e)) a b = sliceNat (sliceNat S s e) a b :=
          sliceNat_prefix_eq hpre a b hble
        have h2 : sliceNat (sliceNat S s e) a b = sliceNat S (s + a) (s + b) :=
          sliceNat_sliceNat S s e a b hb2
        refine ⟨s + a, s + b, ?_, ?_, by omega, by omega, ?_, hlen⟩
        · rw [hst]
          congr 1
          omega
        · rw [hen]
          congr 1
          omega
        · rw [hcont, h1, h2]
      · rcases List.mem_singleton.mp hcp with rfl
        exact ⟨s, e, rfl, rfl, hbnds.2.1, hbnds.2.2, rfl, rfl⟩

theorem identifySections_bounds (text : List Char) (htext : 0 < text.length) :
    ∀ ss se t, (ss, se, t) ∈ identifySections text → ss < se ∧ se ≤ text.length := by
  intro ss se t h
  unfold identifySections at h
  dsimp only at h
  split at h
  · have hss : ss = 0 := congrArg (fun x => x.1) (List.mem_singleton.mp h)
    have hse : se = text.length := congrArg (fun x => x.2.1) (List.mem_singleton.mp h)
    subst hss; subst hse
    exact ⟨htext, le_rfl⟩
  · have hchain : ChainBnd text.length 0 (finditFrom sectionBreakMatcher text) := by
      unfold finditFrom
      exact finditAux_chain sectionBreakMatcher text
        (fun prev cs r a hsome => sectionBreakMatcher_progress prev cs r a hsome)
        (text.length + 1) 0
    have hmapped := chainBnd_map (fun x => pyStrip (sliceNat text x.1 x.2.1)) hchain
    exact (spansWith_bounds hmapped ss se t h).2

theorem chunkFrom_lift {T : List Char} {δ e0 : Nat} (he0 : e0 ≤ T.length) {c : Document}
    (h : ChunkFrom (sliceNat T δ e0) δ c) : ChunkFrom T 0 c := by
  obtain ⟨a, b, hst, hen, hab, hble, hcont, hlen⟩ := h
  have hlenS : (sliceNat T δ e0).length = min (e0 - δ) (T.length - δ) := by
    simp [sliceNat, Nat.min_comm]
  have hb2 : b ≤ e0 - δ := by omega
  have h2 : sliceNat (sliceNat T δ e0) a b = sliceNat T (δ + a) (δ + b) :=
    sliceNat_sliceNat T δ e0 a b hb2
  refine ⟨δ + a, δ + b, ?_, ?_, by omega, by omega, ?_, hlen⟩
  · rw [hst]
    congr 1
    omega
  · rw [hen]
    congr 1
    omega
  · rw [hcont, h2]

/-- C6: for every chunk emitted by the chunking engine (any well-formed
window configuration, i.e. `chunk_overlap < chunk_size`, as in the
defaults), the metadata offsets satisfy
`0 ≤ char_start < char_end ≤ len(source_text)`, the recorded `chunk_length`
equals `len(content)`, and the content is exactly the source slice
`text[char_start:char_end]` up to leading/trailing whitespace stripping
(so `char_end − char_start` differs from `chunk_length` only by the
stripped characters). -/
theorem chunk_offsets_invariant (cfg : RetrievalConfig)
    (hso : cfg.chunkOverlap < cfg.chunkSize) (preserveStructure : Bool)
    (text : List Char) (c : Document)
    (hc : c ∈ chunkDocument cfg preserveStructure text) :
    0 ≤ c.meta.charStart ∧ c.meta.charStart < c.meta.charEnd ∧
    c.meta.charEnd ≤ (text.length : Int) ∧
    c.meta.chunkLength = c.content.length ∧
    c.content = pyStrip (pySlice text c.meta.charStart c.meta.charEnd) := by
  suffices hCF : ChunkFrom text 0 c by
    obtain ⟨a, b, hst, hen, hab, hble, hcont, hlen⟩ := hCF
    simp only [Nat.zero_add] at hst hen
    refine ⟨by rw [hst]; exact Int.natCast_nonneg a,
      by rw [hst, hen]; exact_mod_cast hab,
      by rw [hen]; exact_mod_cast hble, hlen, ?_⟩
    rw [hst, hen, pySlice_eq_sliceNat text _ _ (Int.natCast_nonneg a) (Int.natCast_nonneg b),
      Int.toNat_natCast, Int.toNat_natCast, hcont]
  by_cases hblank : (pyStrip text).isEmpty
  · unfold chunkDocument at hc
    rw [if_pos hblank] at hc
    simp at hc
  · have hbf : (pyStrip text).isEmpty = false := by
      revert hblank
      cases (pyStrip text).isEmpty <;> simp
    have htextpos : 0 < text.length := by
      rcases text with _ | ⟨c0, cs0⟩
      · simp [pyStrip] at hbf
      · simp
    unfold chunkDocument at hc
    rw [if_neg (by simp [hbf])] at hc
    by_cases hps : preserveStructure
    · rw [if_pos hps] at hc
      dsimp only at hc
      split at hc
      · unfold fixedSizeChunking fixedSizeChunkingWithMetadata at hc
        rcases haux : slidingAux cfg.chunkSize cfg.chunkOverlap text "固定大小分塊".data []
            (fun i => "chunk_".data ++ (toString i).data) 0 (text.length + 1) 0 0 with _ | r0
        · rw [haux] at hc
          simp at hc
        · rw [haux] at hc
          simp only [Option.getD_some] at hc
          exact slidingAux_chunkFrom cfg.chunkSize cfg.chunkOverlap hso text
            "固定大小分塊".data [] (fun i => "chunk_".data ++ (toString i).data) 0
            (text.length + 1) 0 0 r0 le_rfl haux c hc
      · unfold semanticChunking at hc
        dsimp only at hc
        split at hc
        · exact chunkSection_chunkFrom cfg hso text "文件內容".data 0 c hc
        · rcases List.mem_flatMap.mp hc with ⟨sec, hsecmem, hcsec⟩
          obtain ⟨ss, se, t⟩ := sec
          have hb := identifySections_bounds text htextpos ss se t hsecmem
          exact chunkFrom_lift hb.2
            (chunkSection_chunkFrom cfg hso (sliceNat text ss se) t ss c hcsec)
    · rw [if_neg hps] at hc
      unfold fixedSizeChunking fixedSizeChunkingWithMetadata at hc
      rcases haux : slidingAux cfg.chunkSize cfg.chunkOverlap text "固定大小分塊".data []
          (fun i => "chunk_".data ++ (toString i).data) 0 (text.length + 1) 0 0 with _ | r0
      · rw [haux] at hc
        simp at hc
      · rw [haux] at hc
        simp only [Option.getD_some] at hc
        exact slidingAux_chunkFrom cfg.chunkSize cfg.chunkOverlap hso text
          "固定大小分塊".data [] (fun i => "chunk_".data ++ (toString i).data) 0
          (text.length + 1) 0 0 r0 le_rfl haux c hc

set_option maxRecDepth 20000 in
/-- Witness for C6: the first chunk produced from a concrete two-clause
policy text satisfies the offset invariant. -/
theorem chunk_offsets_invariant_witness :
    defaultRetrievalConfig.chunkOverlap < defaultRetrievalConfig.chunkSize ∧
    ((chunkDocument defaultRetrievalConfig true "第1條 保險內容說明\n第2條 其他".data).headD
        (createChunk [] [] [] [] 0 0) ∈
      chunkDocument defaultRetrievalConfig true "第1條 保險內容說明\n第2條 其他".data) ∧
    (0 ≤ ((chunkDocument defaultRetrievalConfig true
        "第1條 保險內容說明\n第2條 其他".data).headD
        (createChunk [] [] [] [] 0 0)).meta.charStart ∧
     ((chunkDocument defaultRetrievalConfig true "第1條 保險內容說明\n第2條 其他".data).headD
        (createChunk [] [] [] [] 0 0)).meta.charStart <
       ((chunkDocument defaultRetrievalConfig true "第1條 保險內容說明\n第2條 其他".data).headD
        (createChunk [] [] [] [] 0 0)).meta.charEnd ∧
     ((chunkDocument defaultRetrievalConfig true "第1條 保險內容說明\n第2條 其他".data).headD
        (createChunk [] [] [] [] 0 0)).meta.charEnd ≤
       ("第1條 保險內容說明\n第2條 其他".data.length : Int) ∧
     ((chunkDocument defaultRetrievalConfig true "第1條 保險內容說明\n第2條 其他".data).headD
        (createChunk [] [] [] [] 0 0)).meta.chunkLength =
       ((chunkDocument defaultRetrievalConfig true "第1條 保險內容說明\n第2條 其他".data).headD
        (createChunk [] [] [] [] 0 0)).content.length ∧
     ((chunkDocument defaultRetrievalConfig true "第1條 保險內容說明\n第2條 其他".data).headD
        (createChunk [] [] [] [] 0 0)).content =
       pyStrip (pySlice "第1條 保險內容說明\n第2條 其他".data
         ((chunkDocument defaultRetrievalConfig true "第1條 保險內容說明\n第2條 其他".data).headD
           (createChunk [] [] [] [] 0 0)).meta.charStart
         ((chunkDocument defaultRetrievalConfig true "第1條 保險內容說明\n第2條 其他".data).headD
           (createChunk [] [] [] [] 0 0)).meta.charEnd)) :=
  ⟨by decide, by decide,
   chunk_offsets_invariant defaultRetrievalConfig (by decide) true
     "第1條 保險內容說明\n第2條 其他".data
     ((chunkDocument defaultRetrievalConfig true "第1條 保險內容說明\n第2條 其他".data).headD
       (createChunk [] [] [] [] 0 0)) (by decide)⟩

end RagSpec
